import Mathlib

/-!
Verification development for the PokerBot repository.

We shallowly embed the Python sources:
  * `backend/deck.py`       — `playingCard`, `cardDeck` (draw / burn from the end of the list);
  * `backend/hand_evaluator.py` — `evaluateHand`;
  * `backend/main.py`       — `_best_hand_score`, `_compare_hands`, `_take_action`,
                              `_finish_on_fold` and the chip flow of `play_round`.

Python exceptions are modelled with `Option` (a `none` result stands for a raised
exception reaching the caller).  Decision providers (`getPlayerAction`,
`botDecisionWithEval`) are external collaborators: the round engine is
parameterised by the sequence of actions they return.  The deck that
`play_round` builds and shuffles is likewise passed in as the post-shuffle card
list.  `predictWinRate`, printing and CSV logging have no effect on round state
and are omitted.
-/

namespace PokerBot

/-- A playing card, mirroring `playingCard` in `deck.py`: a rank string
(`"2"`..`"10"`, `"J"`, `"Q"`, `"K"`, `"A"`) and a suit string. -/
structure Card where
  rank : String
  suit : String
deriving DecidableEq, Repr

/-- The `rankValues` dictionary of `playingCard.getValue` in `deck.py`, with
`.get(rank, 0)` default `0` for an unknown rank string. -/
def rankValue : String → Nat
  | "2" => 2
  | "3" => 3
  | "4" => 4
  | "5" => 5
  | "6" => 6
  | "7" => 7
  | "8" => 8
  | "9" => 9
  | "10" => 10
  | "J" => 11
  | "Q" => 12
  | "K" => 13
  | "A" => 14
  | _ => 0

/-- `playingCard.getValue` from `deck.py`: the dictionary lookup of the card's
rank. -/
def Card.getValue (c : Card) : Nat :=
  rankValue c.rank

/-- The rank strings of `cardDeck.__init__`. -/
def deckRanks : List String :=
  ["2", "3", "4", "5", "6", "7", "8", "9", "10", "J", "Q", "K", "A"]

/-- The suit strings of `cardDeck.__init__`. -/
def deckSuits : List String :=
  ["Hearts", "Diamonds", "Clubs", "Spades"]

/-- The 52-card list built by `cardDeck.__init__`
(`[playingCard(rank, suit) for rank in ranks for suit in suits]`). -/
def standardDeck : List Card :=
  deckRanks.flatMap fun r => deckSuits.map fun s => Card.mk r s

/-- `cardDeck.draw(n)` from `deck.py`.  The Python code first checks
`len(self.cards) < n` and raises `emptyDeckError` (modelled as `none`);
otherwise it pops `n` cards off the END of `self.cards`, returning them in pop
order together with the remaining deck. -/
def deckDraw (n : Nat) (cards : List Card) : Option (List Card × List Card) :=
  if cards.length < n then none
  else some (cards.reverse.take n, (cards.reverse.drop n).reverse)

/-- `cardDeck.draw(n)` viewed as a state transition on `self.cards`: on
`emptyDeckError` the exception is raised before any pop, so the deck is left
unchanged. -/
def deckDrawSt (n : Nat) (cards : List Card) : Option (List Card) × List Card :=
  match deckDraw n cards with
  | none => (none, cards)
  | some (drawn, rest) => (some drawn, rest)

/-- `cardDeck.burn(n)` from `deck.py`: like `draw` but discards the popped
cards. -/
def deckBurn (n : Nat) (cards : List Card) : Option (List Card) :=
  if cards.length < n then none
  else some ((cards.reverse.drop n).reverse)

/-! ## Hand evaluator (`hand_evaluator.py`) -/

/-- The in-place `hand.sort(key=lambda card: card.getValue())` of
`evaluateHand`: a stable sort of the hand ascending by rank value.  (Python's
`list.sort` is a stable sort; a stable sort's output is uniquely determined by
the input and the key, so any stable sorting algorithm embeds it.) -/
def sortByValue (hand : List Card) : List Card :=
  hand.insertionSort fun a b => a.getValue ≤ b.getValue

/-- The straight test of `evaluateHand`
(`all(listOfRanks[i] + 1 == listOfRanks[i + 1] for i in range(len(listOfRanks) - 1))`). -/
def consecutive : List Nat → Bool
  | [] => true
  | [_] => true
  | a :: b :: rest => (a + 1 == b) && consecutive (b :: rest)

/-- The branch chain of `evaluateHand` computing `handRank` from the sorted
rank values and the suits.  `Counter(listOfRanks).values()` is the list of
occurrence counts, one entry per distinct rank. -/
def handRankOf (listOfRanks : List Nat) (listOfSuits : List String) : Nat :=
  let rankCountValues := listOfRanks.dedup.map fun v => listOfRanks.count v
  let isFlush := listOfSuits.dedup.length == 1
  let isStraight := consecutive listOfRanks
  let isRoyal := listOfRanks == [10, 11, 12, 13, 14]
  if isFlush && isRoyal then 9
  else if isFlush && isStraight then 8
  else if rankCountValues.contains 4 then 7
  else if rankCountValues.contains 3 && rankCountValues.contains 2 then 6
  else if isFlush then 5
  else if isStraight then 4
  else if rankCountValues.contains 3 then 3
  else if rankCountValues.count 2 == 2 then 2
  else if rankCountValues.contains 2 then 1
  else 0

/-- `evaluateHand` from `hand_evaluator.py`, together with the post-state of
the caller's list (the function sorts its argument in place before reading
ranks and suits).  `max(listOfRanks)` raises `ValueError` on an empty hand,
modelled as `none`; otherwise the result is `(handRank, highCardValue)`. -/
def evaluateHandSt (hand : List Card) : Option (Nat × Nat) × List Card :=
  let sorted := sortByValue hand
  let listOfRanks := sorted.map Card.getValue
  let listOfSuits := sorted.map Card.suit
  (match listOfRanks.max? with
   | none => none
   | some m => some (handRankOf listOfRanks listOfSuits, m), sorted)

/-- The return value of `evaluateHand` (score only). -/
def evaluateHand (hand : List Card) : Option (Nat × Nat) :=
  (evaluateHandSt hand).1

/-! ## Best-hand selector and hand comparison (`main.py`) -/

/-- Python's lexicographic `<` on `(rank, high card)` score tuples, as used by
`combo_score > best_score` and `player_score > bot_score` in `main.py`.
Scores are `int` pairs there (the initial best is `(-1, -1)`). -/
def scoreLt (a b : Int × Int) : Bool :=
  a.1 < b.1 || (a.1 == b.1 && a.2 < b.2)

/-- Coercion of an `evaluateHand` score into the `int` pair domain of
`_best_hand_score`. -/
def toScore (s : Nat × Nat) : Int × Int :=
  ((s.1 : Int), (s.2 : Int))

/-- One iteration of the `for combo in combinations(cards, 5)` loop of
`_best_hand_score`: keep the lexicographically larger score.  A `none`
propagates an exception raised by `evaluateHand`. -/
def bestStep (best : Option (Int × Int)) (combo : List Card) : Option (Int × Int) :=
  match best, evaluateHand combo with
  | some b, some s => some (if scoreLt b (toScore s) then toScore s else b)
  | _, _ => none

/-- `_best_hand_score` from `main.py`: hands of at most 5 cards are evaluated
directly; larger pools take the maximum score over every 5-card combination,
starting from `best_score = (-1, -1)`. -/
def bestHandScore (cards : List Card) : Option (Int × Int) :=
  if cards.length ≤ 5 then (evaluateHand cards).map toScore
  else (List.sublistsLen 5 cards).foldl bestStep (some ((-1 : Int), (-1 : Int)))

/-- Winner label of a round (`"Player"` / `"Bot"` / `"Tie"` in `main.py`). -/
inductive Winner
  | player
  | bot
  | tie
deriving DecidableEq, Repr

/-- `_compare_hands` from `main.py`: compare the best scores of the two card
pools under the lexicographic order. -/
def compareHands (playerCards botCards : List Card) : Option Winner :=
  match bestHandScore playerCards, bestHandScore botCards with
  | some playerScore, some botScore =>
      if scoreLt botScore playerScore then some .player
      else if scoreLt playerScore botScore then some .bot
      else some .tie
  | _, _ => none

/-! ## Round engine (`play_round` in `main.py`) -/

/-- An action returned by a decision provider (`getPlayerAction` or
`botDecisionWithEval`).  Both providers only ever return non-negative integer
raise amounts (`input.isdigit()` and `random.randint`). -/
inductive Action
  | fold
  | call
  | raiseBy (amt : Nat)
deriving DecidableEq, Repr

/-- The eight decisions consumed by one run of `play_round`, in the order the
round requests them (one per actor per street). -/
structure Script where
  preflopPlayer : Action
  preflopBot : Action
  flopPlayer : Action
  flopBot : Action
  turnPlayer : Action
  turnBot : Action
  riverPlayer : Action
  riverBot : Action
deriving DecidableEq, Repr

/-- The chip-related round state: the two balances and the pot. -/
structure Chips where
  player : Int
  bot : Int
  pot : Int
deriving DecidableEq, Repr

/-- Chip effect of `_take_action` (preflop): `FOLD` moves nothing; `CALL` puts
`min(amountToCall, balance)` into the pot; `RAISE` puts
`min(amountToCall + raiseAmount, balance)`.  Returns the new chip state, the
actor's new committed amount, and the folded flag. -/
def takeAction (isPlayer : Bool) (a : Action) (amountToCall : Int)
    (c : Chips) (committed : Int) : Chips × Int × Bool :=
  match a with
  | .fold => (c, committed, true)
  | .call =>
      let balance := if isPlayer then c.player else c.bot
      let toPut := min amountToCall balance
      (if isPlayer then ⟨c.player - toPut, c.bot, c.pot + toPut⟩
       else ⟨c.player, c.bot - toPut, c.pot + toPut⟩, committed + toPut, false)
  | .raiseBy r =>
      let balance := if isPlayer then c.player else c.bot
      let toPut := min (amountToCall + (r : Int)) balance
      (if isPlayer then ⟨c.player - toPut, c.bot, c.pot + toPut⟩
       else ⟨c.player, c.bot - toPut, c.pot + toPut⟩, committed + toPut, false)

/-- Chip effect of `_finish_on_fold`: award the whole pot to the stage winner
and clear the pot. -/
def finishOnFold (stageWinner : Winner) (c : Chips) : Chips :=
  match stageWinner with
  | .player => ⟨c.player + c.pot, c.bot, 0⟩
  | .bot => ⟨c.player, c.bot + c.pot, 0⟩
  | .tie => ⟨c.player, c.bot, 0⟩

/-- Postflop action of the player (flop/turn/river blocks of `play_round`):
`CALL` is a check (no chips move), `RAISE` puts `min(raiseAmt, playerBalance)`.
Returns the new chips, the player's street commitment, and the folded flag. -/
def postflopPlayerAct (a : Action) (c : Chips) : Chips × Int × Bool :=
  match a with
  | .fold => (c, 0, true)
  | .call => (c, 0, false)
  | .raiseBy r =>
      let toPut := min (r : Int) c.player
      (⟨c.player - toPut, c.bot, c.pot + toPut⟩, toPut, false)

/-- Postflop action of the bot: `CALL` matches `playerCommitted` when it is
positive (capped at the bot's balance), `RAISE` puts
`min(playerCommitted + raiseAmt, botBalance)`. -/
def postflopBotAct (a : Action) (playerCommitted : Int) (c : Chips) :
    Chips × Int × Bool :=
  match a with
  | .fold => (c, 0, true)
  | .call =>
      if 0 < playerCommitted then
        let toPut := min playerCommitted c.bot
        (⟨c.player, c.bot - toPut, c.pot + toPut⟩, toPut, false)
      else (c, 0, false)
  | .raiseBy r =>
      let toPut := min (playerCommitted + (r : Int)) c.bot
      (⟨c.player, c.bot - toPut, c.pot + toPut⟩, toPut, false)

/-- Outcome of the betting on one street: either play continues with the new
chip state, or somebody folded (`c` is the chip state just before
`_finish_on_fold` runs).  `snaps` records the chip state after each action of
the street, in order. -/
inductive StreetOut
  | cont (c : Chips) (snaps : List Chips)
  | folded (stageWinner : Winner) (c : Chips) (snaps : List Chips)

/-- The preflop betting round of `play_round`: the small blind acts first; each
actor acts exactly once; the amount to call is the committed difference clamped
at 0; a fold ends the street immediately. -/
def preflopStreet (firstIsPlayer : Bool) (aPlayer aBot : Action)
    (c0 : Chips) (pCom0 bCom0 : Int) : StreetOut :=
  if firstIsPlayer then
    let amt1 := max 0 (bCom0 - pCom0)
    let (c1, pCom1, pFolded) := takeAction true aPlayer amt1 c0 pCom0
    if pFolded then .folded .bot c1 [c1]
    else
      let amt2 := max 0 (pCom1 - bCom0)
      let (c2, _, bFolded) := takeAction false aBot amt2 c1 bCom0
      if bFolded then .folded .player c2 [c1, c2]
      else .cont c2 [c1, c2]
  else
    let amt1 := max 0 (pCom0 - bCom0)
    let (c1, bCom1, bFolded) := takeAction false aBot amt1 c0 bCom0
    if bFolded then .folded .player c1 [c1]
    else
      let amt2 := max 0 (bCom1 - pCom0)
      let (c2, _, pFolded) := takeAction true aPlayer amt2 c1 pCom0
      if pFolded then .folded .bot c2 [c1, c2]
      else .cont c2 [c1, c2]

/-- One postflop betting street (identical chip logic on flop, turn and river):
player acts first, then the bot; a fold ends the street immediately. -/
def postflopStreet (aPlayer aBot : Action) (c0 : Chips) : StreetOut :=
  let (c1, pCom, pFolded) := postflopPlayerAct aPlayer c0
  if pFolded then .folded .bot c1 [c1]
  else
    let (c2, _, bFolded) := postflopBotAct aBot pCom c1
    if bFolded then .folded .player c2 [c1, c2]
    else .cont c2 [c1, c2]

/-- Blind posting of `play_round`: the small blind (capped at that actor's
balance) and the big blind (capped at the other's) move into the pot; the
per-street committed trackers start at the posted amounts.  Returns
`(chips, playerCommitted, botCommitted)`. -/
def postBlinds (p0 b0 : Int) (playerIsSmallBlind : Bool) (sb bb : Int) :
    Chips × Int × Int :=
  if playerIsSmallBlind then
    let sbAmount := min sb p0
    let bbAmount := min bb b0
    (⟨p0 - sbAmount, b0 - bbAmount, sbAmount + bbAmount⟩, sbAmount, bbAmount)
  else
    let sbAmount := min sb b0
    let bbAmount := min bb p0
    (⟨p0 - bbAmount, b0 - sbAmount, sbAmount + bbAmount⟩, bbAmount, sbAmount)

/-- Chip effect of the showdown pot award in `play_round`: the winner's balance
receives the pot; on a tie nothing moves; the local `pot` variable is not
cleared on this path. -/
def awardShowdown (w : Winner) (c : Chips) : Chips :=
  match w with
  | .player => ⟨c.player + c.pot, c.bot, c.pot⟩
  | .bot => ⟨c.player, c.bot + c.pot, c.pot⟩
  | .tie => c

/-- Everything `play_round` has produced when it returns: the winner label, the
final chip state (balances are returned; `pot` is the final value of the local
pot variable), the dealt cards, the remaining deck, the chip-state snapshots
(after the blinds and after each action, up to the moment the pot is
disbursed), and whether the round ended by a fold. -/
structure RoundResult where
  winner : Winner
  chips : Chips
  playerHand : List Card
  botHand : List Card
  community : List Card
  deck : List Card
  trace : List Chips
  byFold : Bool
deriving Repr

/-- Assemble the result of a fold termination (`_finish_on_fold`). -/
def mkFoldResult (stageWinner : Winner) (cPre : Chips) (trace : List Chips)
    (playerHand botHand community deck : List Card) : RoundResult :=
  ⟨stageWinner, finishOnFold stageWinner cPre, playerHand, botHand, community,
    deck, trace, true⟩

/-- The showdown block of `play_round`: compare the best hands over
hole + community cards, award the pot to the winner (the local `pot` variable
is not cleared on this path) and return. -/
def showdownPart (c4 : Chips) (playerHand botHand community deck : List Card)
    (trace : List Chips) : Option RoundResult := do
  let w ← compareHands (playerHand ++ community) (botHand ++ community)
  some ⟨w, awardShowdown w c4, playerHand, botHand, community, deck, trace, false⟩

/-- The river block of `play_round`: burn one card, deal one community card,
run the river betting (fold terminates the round), then go to showdown. -/
def riverStage (aPlayer aBot : Action) (c3 : Chips)
    (playerHand botHand community4 d6 : List Card) (acc : List Chips) :
    Option RoundResult := do
  let d7 ← deckBurn 1 d6
  let (riverCard, d8) ← deckDraw 1 d7
  let community5 := community4 ++ riverCard
  match postflopStreet aPlayer aBot c3 with
  | .folded w cPre snaps =>
      some (mkFoldResult w cPre (acc ++ snaps) playerHand botHand community5 d8)
  | .cont c4 snaps =>
      showdownPart c4 playerHand botHand community5 d8 (acc ++ snaps)

/-- The turn block of `play_round`: burn one card, deal one community card, run
the turn betting, then continue with the river. -/
def turnStage (scr : Script) (c2 : Chips)
    (playerHand botHand community3 d4 : List Card) (acc : List Chips) :
    Option RoundResult := do
  let d5 ← deckBurn 1 d4
  let (turnCard, d6) ← deckDraw 1 d5
  let community4 := community3 ++ turnCard
  match postflopStreet scr.turnPlayer scr.turnBot c2 with
  | .folded w cPre snaps =>
      some (mkFoldResult w cPre (acc ++ snaps) playerHand botHand community4 d6)
  | .cont c3 snaps =>
      riverStage scr.riverPlayer scr.riverBot c3 playerHand botHand community4 d6
        (acc ++ snaps)

/-- The flop block of `play_round`: burn one card, deal three community cards,
run the flop betting, then continue with the turn. -/
def flopStage (scr : Script) (c1 : Chips) (playerHand botHand d2 : List Card)
    (acc : List Chips) : Option RoundResult := do
  let d3 ← deckBurn 1 d2
  let (flopCards, d4) ← deckDraw 3 d3
  match postflopStreet scr.flopPlayer scr.flopBot c1 with
  | .folded w cPre snaps =>
      some (mkFoldResult w cPre (acc ++ snaps) playerHand botHand flopCards d4)
  | .cont c2 snaps =>
      turnStage scr c2 playerHand botHand flopCards d4 (acc ++ snaps)

/-- The chip, card and control flow of `play_round` from `main.py`.

Inputs: the starting balances, who is small blind, the blind sizes, the
post-shuffle deck built at the top of `play_round`, and the actions the two
decision providers return (one per actor per street).  A `none` result models
an `emptyDeckError` escaping `safe_draw`'s reset path, which cannot happen for
the 52-card deck `play_round` always builds (at most 12 cards are consumed). -/
def playRound (p0 b0 : Int) (playerIsSmallBlind : Bool) (sb bb : Int)
    (deck0 : List Card) (scr : Script) : Option RoundResult := do
  let (playerHand, d1) ← deckDraw 2 deck0
  let (botHand, d2) ← deckDraw 2 d1
  let (cB, pCom, bCom) := postBlinds p0 b0 playerIsSmallBlind sb bb
  match preflopStreet playerIsSmallBlind scr.preflopPlayer scr.preflopBot cB pCom bCom with
  | .folded w cPre snaps =>
      some (mkFoldResult w cPre (cB :: snaps) playerHand botHand [] d2)
  | .cont c1 snaps1 =>
      flopStage scr c1 playerHand botHand d2 (cB :: snaps1)

/-! ## Fold bookkeeping used to state the fold-termination claim -/

/-- The four betting streets. -/
inductive Street
  | preflop
  | flop
  | turn
  | river
deriving DecidableEq, Repr

/-- The two actors. -/
inductive Actor
  | player
  | bot
deriving DecidableEq, Repr

/-- Who, if anyone, folds during the preflop betting (the small blind acts
first, so the order of inspection depends on who is small blind). -/
def preflopFirstFold (playerIsSmallBlind : Bool) (scr : Script) : Option Actor :=
  if playerIsSmallBlind then
    if scr.preflopPlayer = .fold then some .player
    else if scr.preflopBot = .fold then some .bot
    else none
  else
    if scr.preflopBot = .fold then some .bot
    else if scr.preflopPlayer = .fold then some .player
    else none

/-- Who, if anyone, folds during one postflop street (player acts first). -/
def streetFirstFold (aPlayer aBot : Action) : Option Actor :=
  if aPlayer = .fold then some .player
  else if aBot = .fold then some .bot
  else none

/-- The first fold a script produces in the order `play_round` consumes the
actions, if any. -/
def firstFold (playerIsSmallBlind : Bool) (scr : Script) : Option (Street × Actor) :=
  match preflopFirstFold playerIsSmallBlind scr with
  | some a => some (.preflop, a)
  | none =>
  match streetFirstFold scr.flopPlayer scr.flopBot with
  | some a => some (.flop, a)
  | none =>
  match streetFirstFold scr.turnPlayer scr.turnBot with
  | some a => some (.turn, a)
  | none =>
  match streetFirstFold scr.riverPlayer scr.riverBot with
  | some a => some (.river, a)
  | none => none

/-- Number of community cards on the table while a given street is bet. -/
def communityCountAt : Street → Nat
  | .preflop => 0
  | .flop => 3
  | .turn => 4
  | .river => 5

/-- Number of cards consumed from the deck (hole cards, burns and community
cards) by the time a given street is bet. -/
def deckUsedAt : Street → Nat
  | .preflop => 4
  | .flop => 8
  | .turn => 10
  | .river => 12

/-- The winner when the given actor folds. -/
def otherActor : Actor → Winner
  | .player => .bot
  | .bot => .player

/-- The script in which both actors choose CALL on every street. -/
def allCallScript : Script :=
  ⟨.call, .call, .call, .call, .call, .call, .call, .call⟩

/-! ## Spec-side hand categories (for the refinement claim about §4.2) -/

/-- Category assignment written from the words of spec §4.2, independently of
the code: sort the rank values ascending; Flush iff all 5 suits identical;
Straight iff the sorted rank values are consecutive integers; then, highest
precedence first: Flush + ranks = [10,J,Q,K,A] → 9; Flush + Straight → 8; any
rank count = 4 → 7; a count = 3 and a count = 2 together → 6; Flush alone → 5;
Straight alone → 4; a count = 3 alone → 3; exactly two counts = 2 → 2; exactly
one count = 2 → 1; else → 0. -/
def specCategory (hand : List Card) : Nat :=
  let vals := hand.map Card.getValue
  let sortedVals := vals.insertionSort (· ≤ ·)
  let flush : Prop := (hand.map Card.suit).toFinset.card = 1
  let straight : Prop := List.Chain' (fun a b => b = a + 1) sortedVals
  let hasCount : Nat → Prop := fun n => ∃ v ∈ vals, vals.count v = n
  let pairKinds := (vals.toFinset.filter fun v => vals.count v = 2).card
  if flush ∧ sortedVals = [10, 11, 12, 13, 14] then 9
  else if flush ∧ straight then 8
  else if hasCount 4 then 7
  else if hasCount 3 ∧ hasCount 2 then 6
  else if flush then 5
  else if straight then 4
  else if hasCount 3 then 3
  else if pairKinds = 2 then 2
  else if pairKinds = 1 then 1
  else 0

/-! ## Basic facts about the deck operations -/

theorem deckDraw_eq_some {n : Nat} {cards drawn rest : List Card}
    (h : deckDraw n cards = some (drawn, rest)) :
    drawn.length = n ∧ rest.length = cards.length - n ∧ n ≤ cards.length := by
  unfold deckDraw at h
  split at h
  · simp at h
  · rename_i hlen
    simp only [Option.some.injEq, Prod.mk.injEq] at h
    obtain ⟨rfl, rfl⟩ := h
    refine ⟨?_, by simp, by omega⟩
    simp
    omega

theorem deckDraw_isSome {n : Nat} {cards : List Card} (h : n ≤ cards.length) :
    deckDraw n cards = some (cards.reverse.take n, (cards.reverse.drop n).reverse) := by
  unfold deckDraw
  split
  · omega
  · rfl

theorem deckBurn_eq_some {n : Nat} {cards rest : List Card}
    (h : deckBurn n cards = some rest) :
    rest.length = cards.length - n ∧ n ≤ cards.length := by
  unfold deckBurn at h
  split at h
  · simp at h
  · rename_i hlen
    simp only [Option.some.injEq] at h
    subst h
    exact ⟨by simp, by omega⟩

theorem deckBurn_isSome {n : Nat} {cards : List Card} (h : n ≤ cards.length) :
    deckBurn n cards = some ((cards.reverse.drop n).reverse) := by
  unfold deckBurn
  split
  · omega
  · rfl

/-- C3: `draw(n)` raises `emptyDeckError` exactly when fewer than `n` cards
remain, leaving the deck unchanged in that case; on success it removes and
returns `n` cards, so `size_before - size_after = n`. -/
theorem C3_draw_contract (cards : List Card) (n : Nat) :
    (cards.length < n → deckDrawSt n cards = (none, cards)) ∧
    (n ≤ cards.length →
      ∃ drawn rest, deckDrawSt n cards = (some drawn, rest) ∧
        drawn.length = n ∧ cards.length - rest.length = n) := by
  constructor
  · intro h
    unfold deckDrawSt deckDraw
    rw [if_pos h]
  · intro h
    refine ⟨cards.reverse.take n, (cards.reverse.drop n).reverse, ?_, ?_, ?_⟩
    · unfold deckDrawSt
      rw [deckDraw_isSome h]
    · simp; omega
    · simp; omega

/-- Witness for C3 at concrete inputs: drawing 2 from the full 52-card deck
succeeds with the size contract; drawing 53 fails and leaves the deck as is. -/
theorem C3_draw_contract_witness :
    deckDrawSt 53 standardDeck = (none, standardDeck) ∧
    ∃ drawn rest, deckDrawSt 2 standardDeck = (some drawn, rest) ∧
      drawn.length = 2 ∧ standardDeck.length - rest.length = 2 :=
  ⟨(C3_draw_contract standardDeck 53).1 (by decide),
   (C3_draw_contract standardDeck 2).2 (by decide)⟩

/-- C7 (divergence witness): `evaluateHand` has no size guard.  On the 4-card
hand 2♥ 3♥ 4♥ 5♥ it silently returns the score `(8, 5)` instead of raising an
input error. -/
theorem C7_no_size_guard :
    evaluateHand [Card.mk "2" "Hearts", Card.mk "3" "Hearts",
      Card.mk "4" "Hearts", Card.mk "5" "Hearts"] = some (8, 5) := by decide

/-! ## Facts about the in-place sort performed by `evaluateHand` -/

theorem sortByValue_perm (hand : List Card) : (sortByValue hand).Perm hand :=
  List.perm_insertionSort _ _

theorem sortByValue_sorted (hand : List Card) :
    List.Sorted (fun a b : Card => a.getValue ≤ b.getValue) (sortByValue hand) := by
  haveI : IsTotal Card fun a b => a.getValue ≤ b.getValue :=
    ⟨fun a b => Nat.le_total _ _⟩
  haveI : IsTrans Card fun a b => a.getValue ≤ b.getValue :=
    ⟨fun _ _ _ => Nat.le_trans⟩
  exact List.sorted_insertionSort _ _

theorem evaluateHandSt_snd (hand : List Card) :
    (evaluateHandSt hand).2 = sortByValue hand := rfl

/-- C10: `evaluateHand` sorts the caller's list in place: after the call the
argument holds the same cards, reordered ascending by rank value. -/
theorem C10_sorts_in_place (hand : List Card) :
    (evaluateHandSt hand).2.Perm hand ∧
    List.Sorted (fun a b : Card => a.getValue ≤ b.getValue) (evaluateHandSt hand).2 := by
  rw [evaluateHandSt_snd]
  exact ⟨sortByValue_perm hand, sortByValue_sorted hand⟩

/-! ## The sorted rank values seen by `evaluateHand` -/

/-- The rank-value list `evaluateHand` builds after sorting. -/
def sortedRanks (hand : List Card) : List Nat :=
  (sortByValue hand).map Card.getValue

theorem sortedRanks_sorted (hand : List Card) :
    List.Sorted (· ≤ ·) (sortedRanks hand) :=
  List.Pairwise.map Card.getValue (fun _ _ h => h) (sortByValue_sorted hand)

theorem sortedRanks_perm (hand : List Card) :
    (sortedRanks hand).Perm (hand.map Card.getValue) :=
  (sortByValue_perm hand).map Card.getValue

/-- Any sorted list of naturals that the rank values permute to is exactly the
sorted rank list. -/
theorem sortedRanks_eq_of_perm_sorted {hand : List Card} {l : List Nat}
    (hp : (hand.map Card.getValue).Perm l) (hs : List.Sorted (· ≤ ·) l) :
    sortedRanks hand = l :=
  List.eq_of_perm_of_sorted ((sortedRanks_perm hand).trans hp)
    (sortedRanks_sorted hand) hs

theorem evaluateHand_eq (hand : List Card) :
    evaluateHand hand =
      match (sortedRanks hand).max? with
      | none => none
      | some m => some (handRankOf (sortedRanks hand)
          ((sortByValue hand).map Card.suit), m) := rfl

/-- `handRankOf` depends on the suits only through the flush test. -/
theorem handRankOf_suit_congr (ranks : List Nat) (suits suits' : List String)
    (h : (suits.dedup.length == 1) = (suits'.dedup.length == 1)) :
    handRankOf ranks suits = handRankOf ranks suits' := by
  unfold handRankOf
  rw [h]

/-- On the rank values of a 5-high hand with an Ace, the evaluator assigns
Flush or High Card (never any straight category). -/
theorem handRankOf_wheel (suits : List String) :
    handRankOf [2, 3, 4, 5, 14] suits = 5 ∨
    handRankOf [2, 3, 4, 5, 14] suits = 0 := by
  cases h : suits.dedup.length == 1 with
  | false =>
      right
      rw [handRankOf_suit_congr [2, 3, 4, 5, 14] suits ["a", "b"] (by rw [h]; decide)]
      decide
  | true =>
      left
      rw [handRankOf_suit_congr [2, 3, 4, 5, 14] suits ["a"] (by rw [h]; decide)]
      decide

/-- C8: a hand with ranks A, 2, 3, 4, 5 is never scored as a Straight (4),
Straight Flush (8) or Royal Flush (9): the Ace counts 14, so the sorted values
[2,3,4,5,14] are not consecutive. -/
theorem C8_no_low_ace_straight (hand : List Card)
    (hranks : (hand.map Card.rank).Perm ["A", "2", "3", "4", "5"]) :
    ∃ c t, evaluateHand hand = some (c, t) ∧ c ≠ 4 ∧ c ≠ 8 ∧ c ≠ 9 := by
  have hvals : (hand.map Card.getValue).Perm [14, 2, 3, 4, 5] := by
    have h2 := hranks.map rankValue
    rw [List.map_map] at h2
    have h3 : rankValue ∘ Card.rank = Card.getValue := rfl
    have h4 : List.map rankValue ["A", "2", "3", "4", "5"] = [14, 2, 3, 4, 5] := by decide
    rw [h3, h4] at h2
    exact h2
  have hr : sortedRanks hand = [2, 3, 4, 5, 14] :=
    sortedRanks_eq_of_perm_sorted (hvals.trans (by decide)) (by decide)
  rw [evaluateHand_eq, hr]
  rcases handRankOf_wheel ((sortByValue hand).map Card.suit) with h | h <;>
    exact ⟨_, _, by rw [h]; rfl, by omega, by omega, by omega⟩

/-- Witness for C8 at a concrete wheel hand (A♥ 2♥ 3♥ 4♥ 5♥). -/
theorem C8_no_low_ace_straight_witness :
    ∃ c t, evaluateHand [Card.mk "A" "Hearts", Card.mk "2" "Hearts",
      Card.mk "3" "Hearts", Card.mk "4" "Hearts", Card.mk "5" "Hearts"] =
        some (c, t) ∧ c ≠ 4 ∧ c ≠ 8 ∧ c ≠ 9 :=
  C8_no_low_ace_straight _ (by decide)

/-! ## Bridging the evaluator's tests to the spec-side conditions -/

theorem bool_eq_decide {b : Bool} {p : Prop} [Decidable p] (h : b = true ↔ p) :
    b = decide p := by
  cases b <;> simp_all

theorem count_map_eq_countP (f : Nat → Nat) (l : List Nat) (k : Nat) :
    (l.map f).count k = l.countP fun v => f v == k := by
  induction l with
  | nil => rfl
  | cons a l ih => simp [List.count_cons, List.countP_cons, ih]

theorem consecutive_iff_chain (l : List Nat) :
    consecutive l = true ↔ List.Chain' (fun a b => b = a + 1) l := by
  induction l with
  | nil => simp [consecutive]
  | cons a t ih =>
      cases t with
      | nil => simp [consecutive]
      | cons b rest =>
          rw [show consecutive (a :: b :: rest) =
            ((a + 1 == b) && consecutive (b :: rest)) from rfl]
          rw [Bool.and_eq_true, beq_iff_eq, List.chain'_cons, ih]
          constructor
          · rintro ⟨h1, h2⟩
            exact ⟨h1.symm, h2⟩
          · rintro ⟨h1, h2⟩
            exact ⟨h1.symm, h2⟩

theorem flush_bridge (hand : List Card) :
    ((((sortByValue hand).map Card.suit).dedup.length == 1) = true) ↔
      (hand.map Card.suit).toFinset.card = 1 := by
  rw [beq_iff_eq, List.card_toFinset]
  have hp : (((sortByValue hand).map Card.suit).dedup).Perm
      ((hand.map Card.suit).dedup) := ((sortByValue_perm hand).map Card.suit).dedup
  rw [hp.length_eq]

theorem sortedRanks_eq_spec (hand : List Card) :
    sortedRanks hand = (hand.map Card.getValue).insertionSort (· ≤ ·) :=
  sortedRanks_eq_of_perm_sorted (List.perm_insertionSort _ _).symm
    (List.sorted_insertionSort _ _)

theorem contains_bridge (hand : List Card) (k : Nat) :
    ((((sortedRanks hand).dedup.map fun v => (sortedRanks hand).count v).contains k)
        = true) ↔
      ∃ v ∈ hand.map Card.getValue, (hand.map Card.getValue).count v = k := by
  have hp := sortedRanks_perm hand
  rw [List.elem_iff]
  constructor
  · intro hmem
    obtain ⟨v, hv, hc⟩ := List.mem_map.mp hmem
    exact ⟨v, hp.mem_iff.mp (List.mem_dedup.mp hv), by rw [← hp.count_eq v]; exact hc⟩
  · rintro ⟨v, hv, hc⟩
    exact List.mem_map.mpr ⟨v, List.mem_dedup.mpr (hp.mem_iff.mpr hv),
      by rw [hp.count_eq v]; exact hc⟩

theorem pair_count_bridge (hand : List Card) :
    (((sortedRanks hand).dedup.map fun v => (sortedRanks hand).count v).count 2) =
      ((hand.map Card.getValue).toFinset.filter fun v =>
        (hand.map Card.getValue).count v = 2).card := by
  have hp := sortedRanks_perm hand
  rw [count_map_eq_countP]
  have h1 : ((sortedRanks hand).dedup.countP fun v => (sortedRanks hand).count v == 2)
      = (sortedRanks hand).dedup.countP fun v => (hand.map Card.getValue).count v == 2 :=
    List.countP_congr fun v _ => by rw [hp.count_eq v]
  rw [h1, hp.dedup.countP_eq]
  rw [List.countP_eq_length_filter]
  have h2 : (hand.map Card.getValue).toFinset.filter
      (fun v => (hand.map Card.getValue).count v = 2) =
      ⟨↑((hand.map Card.getValue).dedup.filter
          fun v => (hand.map Card.getValue).count v == 2),
        (List.nodup_dedup _).filter _⟩ := by
    ext v
    simp [List.mem_dedup, List.mem_filter]
  rw [h2]
  rfl

theorem pairKinds_le_two (vals : List Nat) (h5 : vals.length = 5) :
    (vals.toFinset.filter fun v => vals.count v = 2).card ≤ 2 := by
  have hsum : ∑ v ∈ vals.toFinset, vals.count v = 5 := by
    have h := Multiset.toFinset_sum_count_eq (↑vals : Multiset Nat)
    simpa [Multiset.coe_count, Multiset.coe_card, h5] using h
  have hle : ∑ v ∈ vals.toFinset.filter (fun v => vals.count v = 2), vals.count v ≤
      ∑ v ∈ vals.toFinset, vals.count v :=
    Finset.sum_le_sum_of_subset (Finset.filter_subset _ _)
  have heq : ∑ v ∈ vals.toFinset.filter (fun v => vals.count v = 2), vals.count v =
      2 * (vals.toFinset.filter fun v => vals.count v = 2).card := by
    rw [Finset.sum_congr rfl fun v hv => (Finset.mem_filter.mp hv).2]
    simp [Finset.sum_const, Nat.mul_comm]
  omega

theorem pairKinds_pos_iff (vals : List Nat) :
    (∃ v ∈ vals, vals.count v = 2) ↔
      0 < (vals.toFinset.filter fun v => vals.count v = 2).card := by
  rw [Finset.card_pos, Finset.filter_nonempty_iff]
  constructor
  · rintro ⟨v, hv, hc⟩
    exact ⟨v, List.mem_toFinset.mpr hv, hc⟩
  · rintro ⟨v, hv, hc⟩
    exact ⟨v, List.mem_toFinset.mp hv, hc⟩

theorem handRankOf_le_nine (ranks : List Nat) (suits : List String) :
    handRankOf ranks suits ≤ 9 := by
  simp only [handRankOf]
  split_ifs <;> omega

theorem max?_of_ne_nil {l : List Nat} (h : l ≠ []) : ∃ m, l.max? = some m := by
  cases hm : l.max? with
  | none => exact absurd (List.max?_eq_none_iff.mp hm) h
  | some m => exact ⟨m, rfl⟩

/-- C2: on every 5-card hand of distinct cards, `evaluateHand` returns exactly
the category demanded by the precedence order of spec §4.2 (and that category
is in the range 0–9). -/
theorem C2_evaluator_matches_spec (hand : List Card) (h5 : hand.length = 5)
    (hnd : hand.Nodup) :
    ∃ c t, evaluateHand hand = some (c, t) ∧ c = specCategory hand ∧ c ≤ 9 := by
  have hlen : sortedRanks hand ≠ [] := by
    have : (sortedRanks hand).length = 5 := by
      rw [(sortedRanks_perm hand).length_eq, List.length_map, h5]
    intro hcon
    rw [hcon] at this
    simp at this
  obtain ⟨m, hm⟩ := max?_of_ne_nil hlen
  rw [evaluateHand_eq, hm]
  refine ⟨_, m, rfl, ?_, handRankOf_le_nine _ _⟩
  -- Convert every test in the evaluator's branch chain to its spec-side Prop.
  have hF := bool_eq_decide (flush_bridge hand)
  have hS := bool_eq_decide (consecutive_iff_chain (sortedRanks hand))
  have hC4 := bool_eq_decide (contains_bridge hand 4)
  have hC3 := bool_eq_decide (contains_bridge hand 3)
  have hC2 := bool_eq_decide (contains_bridge hand 2)
  have hPK := pair_count_bridge hand
  have hVals : (hand.map Card.getValue).length = 5 := by rw [List.length_map, h5]
  unfold handRankOf
  simp only [specCategory, ← sortedRanks_eq_spec, hF, hS, hC4, hC3, hC2, hPK,
    Bool.and_eq_true, decide_eq_true_eq, beq_iff_eq]
  refine if_congr Iff.rfl rfl (if_congr Iff.rfl rfl (if_congr Iff.rfl rfl
    (if_congr Iff.rfl rfl (if_congr Iff.rfl rfl (if_congr Iff.rfl rfl
      (if_congr Iff.rfl rfl ?_))))))
  -- Last branches: under five cards, once two pair is excluded, "a rank with
  -- count 2 exists" and "exactly one rank has count 2" agree.
  by_cases h2p : ((hand.map Card.getValue).toFinset.filter
      fun v => (hand.map Card.getValue).count v = 2).card = 2
  · rw [if_pos h2p, if_pos h2p]
  · rw [if_neg h2p, if_neg h2p]
    by_cases h1 : ∃ v ∈ hand.map Card.getValue, (hand.map Card.getValue).count v = 2
    · have hpos := (pairKinds_pos_iff (hand.map Card.getValue)).mp h1
      have hle := pairKinds_le_two (hand.map Card.getValue) hVals
      rw [if_pos h1, if_pos (by omega)]
    · have hzero : ((hand.map Card.getValue).toFinset.filter
          fun v => (hand.map Card.getValue).count v = 2).card = 0 := by
        by_contra hc
        exact h1 ((pairKinds_pos_iff (hand.map Card.getValue)).mpr (by omega))
      rw [if_neg h1, if_neg (by omega)]

/-! ## Maximality of the best-hand selector -/

/-- The lexicographic ≤ on score tuples (the order underlying Python's tuple
comparison). -/
def scoreLe (a b : Int × Int) : Prop :=
  a.1 < b.1 ∨ (a.1 = b.1 ∧ a.2 ≤ b.2)

theorem scoreLt_iff (a b : Int × Int) :
    scoreLt a b = true ↔ a.1 < b.1 ∨ (a.1 = b.1 ∧ a.2 < b.2) := by
  simp [scoreLt]

theorem scoreLe_refl (a : Int × Int) : scoreLe a a :=
  Or.inr ⟨rfl, le_refl _⟩

theorem scoreLe_trans {a b c : Int × Int} (h1 : scoreLe a b) (h2 : scoreLe b c) :
    scoreLe a c := by
  unfold scoreLe at *
  omega

theorem scoreLt_scoreLe {a b : Int × Int} (h : scoreLt a b = true) : scoreLe a b := by
  rw [scoreLt_iff] at h
  unfold scoreLe
  omega

theorem scoreLe_of_not_scoreLt {a b : Int × Int} (h : scoreLt a b = false) :
    scoreLe b a := by
  have h2 : ¬(a.1 < b.1 ∨ (a.1 = b.1 ∧ a.2 < b.2)) := by
    rw [← scoreLt_iff, h]
    simp
  unfold scoreLe
  omega

theorem evaluateHand_isSome {hand : List Card} (h : hand ≠ []) :
    ∃ s, evaluateHand hand = some s := by
  have hne : sortedRanks hand ≠ [] := by
    intro hcon
    have hl := (sortedRanks_perm hand).length_eq
    rw [hcon] at hl
    simp at hl
    exact h (List.length_eq_zero.mp hl.symm)
  obtain ⟨m, hm⟩ := max?_of_ne_nil hne
  rw [evaluateHand_eq, hm]
  exact ⟨_, rfl⟩

theorem bestStep_some {b : Int × Int} {combo : List Card} {s : Nat × Nat}
    (hs : evaluateHand combo = some s) :
    bestStep (some b) combo = some (if scoreLt b (toScore s) then toScore s else b) := by
  unfold bestStep
  rw [hs]

theorem foldl_bestStep_spec (l : List (List Card)) (b : Int × Int)
    (hne : ∀ combo ∈ l, combo ≠ []) :
    ∃ best, l.foldl bestStep (some b) = some best ∧ scoreLe b best ∧
      ∀ combo ∈ l, ∀ s, evaluateHand combo = some s → scoreLe (toScore s) best := by
  induction l generalizing b with
  | nil => exact ⟨b, rfl, scoreLe_refl b, by simp⟩
  | cons c t ih =>
      obtain ⟨s, hs⟩ := evaluateHand_isSome (hne c (by simp))
      obtain ⟨best, hfold, hle, hall⟩ :=
        ih (if scoreLt b (toScore s) then toScore s else b)
          (fun x hx => hne x (by simp [hx]))
      have hstep : scoreLe b (if scoreLt b (toScore s) then toScore s else b) := by
        cases hlt : scoreLt b (toScore s) with
        | false => rw [if_neg (by simp)]; exact scoreLe_refl b
        | true => rw [if_pos rfl]; exact scoreLt_scoreLe hlt
      have hsstep : scoreLe (toScore s) (if scoreLt b (toScore s) then toScore s else b) := by
        cases hlt : scoreLt b (toScore s) with
        | false => rw [if_neg (by simp)]; exact scoreLe_of_not_scoreLt hlt
        | true => rw [if_pos rfl]; exact scoreLe_refl _
      refine ⟨best, ?_, scoreLe_trans hstep hle, ?_⟩
      · rw [List.foldl_cons, bestStep_some hs]
        exact hfold
      · intro combo hc s' hs'
        rcases List.mem_cons.mp hc with rfl | hmem
        · rw [hs] at hs'
          injection hs' with hss
          subst hss
          exact scoreLe_trans hsstep hle
        · exact hall combo hmem s' hs'

/-- C4: over a 7-card pool, `_best_hand_score` returns a score that is at least
the `evaluateHand` score of every 5-card subset of the pool, in the
lexicographic order on (category, tiebreak). -/
theorem C4_best_hand_maximal (pool : List Card) (h7 : pool.length = 7)
    (combo : List Card) (hsub : combo.Sublist pool) (h5 : combo.length = 5) :
    ∃ best s, bestHandScore pool = some best ∧ evaluateHand combo = some s ∧
      scoreLe (toScore s) best := by
  have hmem : combo ∈ List.sublistsLen 5 pool := List.mem_sublistsLen.mpr ⟨hsub, h5⟩
  have hne : ∀ x ∈ List.sublistsLen 5 pool, x ≠ [] := by
    intro x hx hcon
    obtain ⟨_, hlen⟩ := List.mem_sublistsLen.mp hx
    rw [hcon] at hlen
    simp at hlen
  obtain ⟨best, hfold, _, hall⟩ := foldl_bestStep_spec _ ((-1 : Int), (-1 : Int)) hne
  obtain ⟨s, hs⟩ := evaluateHand_isSome (hne combo hmem)
  refine ⟨best, s, ?_, hs, hall combo hmem s hs⟩
  unfold bestHandScore
  rw [if_neg (by omega)]
  exact hfold

/-- Witness for C4 at a concrete 7-card pool and the subset of its first five
cards. -/
theorem C4_best_hand_maximal_witness :
    ∃ best s,
      bestHandScore [Card.mk "A" "Hearts", Card.mk "K" "Hearts",
        Card.mk "Q" "Hearts", Card.mk "J" "Hearts", Card.mk "10" "Hearts",
        Card.mk "9" "Clubs", Card.mk "2" "Spades"] = some best ∧
      evaluateHand [Card.mk "A" "Hearts", Card.mk "K" "Hearts",
        Card.mk "Q" "Hearts", Card.mk "J" "Hearts", Card.mk "10" "Hearts"] = some s ∧
      scoreLe (toScore s) best := by
  have h := C4_best_hand_maximal
    [Card.mk "A" "Hearts", Card.mk "K" "Hearts", Card.mk "Q" "Hearts",
      Card.mk "J" "Hearts", Card.mk "10" "Hearts", Card.mk "9" "Clubs",
      Card.mk "2" "Spades"] (by decide)
    [Card.mk "A" "Hearts", Card.mk "K" "Hearts", Card.mk "Q" "Hearts",
      Card.mk "J" "Hearts", Card.mk "10" "Hearts"]
    (by decide) (by decide)
  exact h

/-! ## Chip conservation and non-negativity through the betting streets -/

/-- Total chips in play: both balances plus the pot. -/
def chipSum (c : Chips) : Int := c.player + c.bot + c.pot

/-- Both balances and the pot are non-negative. -/
def GoodChips (c : Chips) : Prop := 0 ≤ c.player ∧ 0 ≤ c.bot ∧ 0 ≤ c.pot

/-- Every chip state a street produces (snapshots, continuation state, or the
pre-settlement state of a fold) has the same total as the street's start. -/
def StreetSums (c0 : Chips) : StreetOut → Prop
  | .cont c snaps => chipSum c = chipSum c0 ∧ ∀ s ∈ snaps, chipSum s = chipSum c0
  | .folded _ c snaps => chipSum c = chipSum c0 ∧ ∀ s ∈ snaps, chipSum s = chipSum c0

/-- Every chip state a street produces is good if the street started good. -/
def StreetGoods (c0 : Chips) : StreetOut → Prop
  | .cont c snaps => GoodChips c0 → GoodChips c ∧ ∀ s ∈ snaps, GoodChips s
  | .folded _ c snaps => GoodChips c0 → GoodChips c ∧ ∀ s ∈ snaps, GoodChips s

theorem preflopStreet_sums (f : Bool) (aP aB : Action) (c0 : Chips) (p b : Int) :
    StreetSums c0 (preflopStreet f aP aB c0 p b) := by
  unfold preflopStreet takeAction
  cases f <;> cases aP <;> cases aB <;>
    simp [StreetSums, chipSum] <;> omega

theorem postflopStreet_sums (aP aB : Action) (c0 : Chips) :
    StreetSums c0 (postflopStreet aP aB c0) := by
  cases aP <;> cases aB <;>
    (simp only [postflopStreet, postflopPlayerAct, postflopBotAct]
     split_ifs <;> simp [StreetSums, chipSum] <;> omega)

theorem preflopStreet_goods (f : Bool) (aP aB : Action) (c0 : Chips) (p b : Int) :
    StreetGoods c0 (preflopStreet f aP aB c0 p b) := by
  unfold preflopStreet takeAction
  cases f <;> cases aP <;> cases aB <;>
    simp [StreetGoods, GoodChips] <;> omega

theorem postflopStreet_goods (aP aB : Action) (c0 : Chips) :
    StreetGoods c0 (postflopStreet aP aB c0) := by
  cases aP <;> cases aB <;>
    (simp only [postflopStreet, postflopPlayerAct, postflopBotAct]
     split_ifs <;> simp [StreetGoods, GoodChips] <;> omega)

theorem finishOnFold_good {w : Winner} {c : Chips} (h : GoodChips c) :
    GoodChips (finishOnFold w c) := by
  cases w <;> simp [finishOnFold, GoodChips] at h ⊢ <;> omega

theorem awardShowdown_good {w : Winner} {c : Chips} (h : GoodChips c) :
    GoodChips (awardShowdown w c) := by
  cases w <;> simp [awardShowdown, GoodChips] at h ⊢ <;> omega

theorem postBlinds_sum (p0 b0 : Int) (f : Bool) (sb bb : Int) :
    chipSum (postBlinds p0 b0 f sb bb).1 = p0 + b0 := by
  unfold postBlinds chipSum
  cases f <;> simp <;> ring

theorem postBlinds_good (p0 b0 : Int) (f : Bool) (sb bb : Int)
    (hp : 0 ≤ p0) (hb : 0 ≤ b0) (hsb : 0 ≤ sb) (hbb : 0 ≤ bb) :
    GoodChips (postBlinds p0 b0 f sb bb).1 := by
  unfold postBlinds GoodChips
  cases f <;> simp <;> omega

/-! ## Stage-level lemmas about `play_round` -/

theorem showdownPart_eq_some {c4 : Chips} {ph bh comm deck : List Card}
    {tr : List Chips} {r : RoundResult}
    (hr : showdownPart c4 ph bh comm deck tr = some r) :
    ∃ w, compareHands (ph ++ comm) (bh ++ comm) = some w ∧
      r = ⟨w, awardShowdown w c4, ph, bh, comm, deck, tr, false⟩ := by
  unfold showdownPart at hr
  cases hc : compareHands (ph ++ comm) (bh ++ comm) with
  | none => rw [hc] at hr; simp at hr
  | some w =>
      rw [hc] at hr
      simp only [Option.bind_eq_bind, Option.some_bind, Option.some.injEq] at hr
      exact ⟨w, rfl, hr.symm⟩

theorem riverStage_trace {aP aB : Action} {c3 : Chips}
    {ph bh comm4 d6 : List Card} {acc : List Chips} {T : Int} {r : RoundResult}
    (hacc : ∀ s ∈ acc, chipSum s = T) (hc : chipSum c3 = T)
    (hr : riverStage aP aB c3 ph bh comm4 d6 acc = some r) :
    ∀ s ∈ r.trace, chipSum s = T := by
  unfold riverStage at hr
  cases hb : deckBurn 1 d6 with
  | none => rw [hb] at hr; simp at hr
  | some d7 =>
  rw [hb] at hr
  simp only [Option.bind_eq_bind, Option.some_bind] at hr
  cases hd : deckDraw 1 d7 with
  | none => rw [hd] at hr; simp at hr
  | some p =>
  obtain ⟨rc, d8⟩ := p
  rw [hd] at hr
  simp only [Option.bind_eq_bind, Option.some_bind] at hr
  have hsums := postflopStreet_sums aP aB c3
  cases hps : postflopStreet aP aB c3 with
  | folded w cPre snaps =>
      rw [hps] at hr hsums
      simp only [Option.some.injEq] at hr
      subst hr
      intro s hs
      simp only [mkFoldResult] at hs
      rcases List.mem_append.mp hs with h1 | h2
      · exact hacc s h1
      · exact hc ▸ hsums.2 s h2
  | cont c4 snaps =>
      rw [hps] at hr hsums
      obtain ⟨w, hw, rfl⟩ := showdownPart_eq_some hr
      intro s hs
      rcases List.mem_append.mp hs with h1 | h2
      · exact hacc s h1
      · exact hc ▸ hsums.2 s h2

theorem turnStage_trace {scr : Script} {c2 : Chips}
    {ph bh comm3 d4 : List Card} {acc : List Chips} {T : Int} {r : RoundResult}
    (hacc : ∀ s ∈ acc, chipSum s = T) (hc : chipSum c2 = T)
    (hr : turnStage scr c2 ph bh comm3 d4 acc = some r) :
    ∀ s ∈ r.trace, chipSum s = T := by
  unfold turnStage at hr
  cases hb : deckBurn 1 d4 with
  | none => rw [hb] at hr; simp at hr
  | some d5 =>
  rw [hb] at hr
  simp only [Option.bind_eq_bind, Option.some_bind] at hr
  cases hd : deckDraw 1 d5 with
  | none => rw [hd] at hr; simp at hr
  | some p =>
  obtain ⟨tc, d6⟩ := p
  rw [hd] at hr
  simp only [Option.bind_eq_bind, Option.some_bind] at hr
  have hsums := postflopStreet_sums scr.turnPlayer scr.turnBot c2
  cases hps : postflopStreet scr.turnPlayer scr.turnBot c2 with
  | folded w cPre snaps =>
      rw [hps] at hr hsums
      simp only [Option.some.injEq] at hr
      subst hr
      intro s hs
      simp only [mkFoldResult] at hs
      rcases List.mem_append.mp hs with h1 | h2
      · exact hacc s h1
      · exact hc ▸ hsums.2 s h2
  | cont c3 snaps =>
      rw [hps] at hr hsums
      refine riverStage_trace ?_ (hc ▸ hsums.1) hr
      intro s hs
      rcases List.mem_append.mp hs with h1 | h2
      · exact hacc s h1
      · exact hc ▸ hsums.2 s h2

theorem flopStage_trace {scr : Script} {c1 : Chips}
    {ph bh d2 : List Card} {acc : List Chips} {T : Int} {r : RoundResult}
    (hacc : ∀ s ∈ acc, chipSum s = T) (hc : chipSum c1 = T)
    (hr : flopStage scr c1 ph bh d2 acc = some r) :
    ∀ s ∈ r.trace, chipSum s = T := by
  unfold flopStage at hr
  cases hb : deckBurn 1 d2 with
  | none => rw [hb] at hr; simp at hr
  | some d3 =>
  rw [hb] at hr
  simp only [Option.bind_eq_bind, Option.some_bind] at hr
  cases hd : deckDraw 3 d3 with
  | none => rw [hd] at hr; simp at hr
  | some p =>
  obtain ⟨fc, d4⟩ := p
  rw [hd] at hr
  simp only [Option.bind_eq_bind, Option.some_bind] at hr
  have hsums := postflopStreet_sums scr.flopPlayer scr.flopBot c1
  cases hps : postflopStreet scr.flopPlayer scr.flopBot c1 with
  | folded w cPre snaps =>
      rw [hps] at hr hsums
      simp only [Option.some.injEq] at hr
      subst hr
      intro s hs
      simp only [mkFoldResult] at hs
      rcases List.mem_append.mp hs with h1 | h2
      · exact hacc s h1
      · exact hc ▸ hsums.2 s h2
  | cont c2 snaps =>
      rw [hps] at hr hsums
      refine turnStage_trace ?_ (hc ▸ hsums.1) hr
      intro s hs
      rcases List.mem_append.mp hs with h1 | h2
      · exact hacc s h1
      · exact hc ▸ hsums.2 s h2

/-- C1: at every snapshot taken between the posting of the blinds and the
disbursement of the pot, the pot equals the chips both balances have given up
since the round began. -/
theorem C1_pot_invariant (p0 b0 : Int) (pSB : Bool) (sb bb : Int)
    (deck0 : List Card) (scr : Script) (r : RoundResult)
    (hr : playRound p0 b0 pSB sb bb deck0 scr = some r) :
    ∀ c ∈ r.trace, c.pot = (p0 - c.player) + (b0 - c.bot) := by
  suffices hsum : ∀ c ∈ r.trace, chipSum c = p0 + b0 by
    intro c hc
    have := hsum c hc
    unfold chipSum at this
    omega
  unfold playRound at hr
  cases h1 : deckDraw 2 deck0 with
  | none => rw [h1] at hr; simp at hr
  | some p1 =>
  obtain ⟨ph, d1⟩ := p1
  rw [h1] at hr
  simp only [Option.bind_eq_bind, Option.some_bind] at hr
  cases h2 : deckDraw 2 d1 with
  | none => rw [h2] at hr; simp at hr
  | some p2 =>
  obtain ⟨bh, d2⟩ := p2
  rw [h2] at hr
  simp only [Option.bind_eq_bind, Option.some_bind] at hr
  rcases hpb : postBlinds p0 b0 pSB sb bb with ⟨cB, pCom, bCom⟩
  rw [hpb] at hr
  have hBsum : chipSum cB = p0 + b0 := by
    have := postBlinds_sum p0 b0 pSB sb bb
    rw [hpb] at this
    exact this
  have hpre := preflopStreet_sums pSB scr.preflopPlayer scr.preflopBot cB pCom bCom
  cases hps : preflopStreet pSB scr.preflopPlayer scr.preflopBot cB pCom bCom with
  | folded w cPre snaps =>
      rw [hps] at hr hpre
      simp only [Option.some.injEq] at hr
      subst hr
      intro s hs
      simp only [mkFoldResult] at hs
      rcases List.mem_cons.mp hs with rfl | h2
      · exact hBsum
      · exact hBsum ▸ hpre.2 s h2
  | cont c1 snaps1 =>
      rw [hps] at hr hpre
      refine flopStage_trace ?_ (hBsum ▸ hpre.1) hr
      intro s hs
      rcases List.mem_cons.mp hs with rfl | h2
      · exact hBsum
      · exact hBsum ▸ hpre.2 s h2

theorem riverStage_good {aP aB : Action} {c3 : Chips}
    {ph bh comm4 d6 : List Card} {acc : List Chips} {r : RoundResult}
    (hacc : ∀ s ∈ acc, GoodChips s) (hc : GoodChips c3)
    (hr : riverStage aP aB c3 ph bh comm4 d6 acc = some r) :
    (∀ s ∈ r.trace, GoodChips s) ∧ GoodChips r.chips := by
  unfold riverStage at hr
  cases hb : deckBurn 1 d6 with
  | none => rw [hb] at hr; simp at hr
  | some d7 =>
  rw [hb] at hr
  simp only [Option.bind_eq_bind, Option.some_bind] at hr
  cases hd : deckDraw 1 d7 with
  | none => rw [hd] at hr; simp at hr
  | some p =>
  obtain ⟨rc, d8⟩ := p
  rw [hd] at hr
  simp only [Option.bind_eq_bind, Option.some_bind] at hr
  have hgoods := postflopStreet_goods aP aB c3
  cases hps : postflopStreet aP aB c3 with
  | folded w cPre snaps =>
      rw [hps] at hr hgoods
      simp only [Option.some.injEq] at hr
      subst hr
      obtain ⟨hcPre, hsnaps⟩ := hgoods hc
      refine ⟨?_, finishOnFold_good hcPre⟩
      intro s hs
      simp only [mkFoldResult] at hs
      rcases List.mem_append.mp hs with h1 | h2
      · exact hacc s h1
      · exact hsnaps s h2
  | cont c4 snaps =>
      rw [hps] at hr hgoods
      obtain ⟨w, hw, rfl⟩ := showdownPart_eq_some hr
      obtain ⟨hc4, hsnaps⟩ := hgoods hc
      refine ⟨?_, awardShowdown_good hc4⟩
      intro s hs
      rcases List.mem_append.mp hs with h1 | h2
      · exact hacc s h1
      · exact hsnaps s h2

theorem turnStage_good {scr : Script} {c2 : Chips}
    {ph bh comm3 d4 : List Card} {acc : List Chips} {r : RoundResult}
    (hacc : ∀ s ∈ acc, GoodChips s) (hc : GoodChips c2)
    (hr : turnStage scr c2 ph bh comm3 d4 acc = some r) :
    (∀ s ∈ r.trace, GoodChips s) ∧ GoodChips r.chips := by
  unfold turnStage at hr
  cases hb : deckBurn 1 d4 with
  | none => rw [hb] at hr; simp at hr
  | some d5 =>
  rw [hb] at hr
  simp only [Option.bind_eq_bind, Option.some_bind] at hr
  cases hd : deckDraw 1 d5 with
  | none => rw [hd] at hr; simp at hr
  | some p =>
  obtain ⟨tc, d6⟩ := p
  rw [hd] at hr
  simp only [Option.bind_eq_bind, Option.some_bind] at hr
  have hgoods := postflopStreet_goods scr.turnPlayer scr.turnBot c2
  cases hps : postflopStreet scr.turnPlayer scr.turnBot c2 with
  | folded w cPre snaps =>
      rw [hps] at hr hgoods
      simp only [Option.some.injEq] at hr
      subst hr
      obtain ⟨hcPre, hsnaps⟩ := hgoods hc
      refine ⟨?_, finishOnFold_good hcPre⟩
      intro s hs
      simp only [mkFoldResult] at hs
      rcases List.mem_append.mp hs with h1 | h2
      · exact hacc s h1
      · exact hsnaps s h2
  | cont c3 snaps =>
      rw [hps] at hr hgoods
      obtain ⟨hc3, hsnaps⟩ := hgoods hc
      refine riverStage_good ?_ hc3 hr
      intro s hs
      rcases List.mem_append.mp hs with h1 | h2
      · exact hacc s h1
      · exact hsnaps s h2

theorem flopStage_good {scr : Script} {c1 : Chips}
    {ph bh d2 : List Card} {acc : List Chips} {r : RoundResult}
    (hacc : ∀ s ∈ acc, GoodChips s) (hc : GoodChips c1)
    (hr : flopStage scr c1 ph bh d2 acc = some r) :
    (∀ s ∈ r.trace, GoodChips s) ∧ GoodChips r.chips := by
  unfold flopStage at hr
  cases hb : deckBurn 1 d2 with
  | none => rw [hb] at hr; simp at hr
  | some d3 =>
  rw [hb] at hr
  simp only [Option.bind_eq_bind, Option.some_bind] at hr
  cases hd : deckDraw 3 d3 with
  | none => rw [hd] at hr; simp at hr
  | some p =>
  obtain ⟨fc, d4⟩ := p
  rw [hd] at hr
  simp only [Option.bind_eq_bind, Option.some_bind] at hr
  have hgoods := postflopStreet_goods scr.flopPlayer scr.flopBot c1
  cases hps : postflopStreet scr.flopPlayer scr.flopBot c1 with
  | folded w cPre snaps =>
      rw [hps] at hr hgoods
      simp only [Option.some.injEq] at hr
      subst hr
      obtain ⟨hcPre, hsnaps⟩ := hgoods hc
      refine ⟨?_, finishOnFold_good hcPre⟩
      intro s hs
      simp only [mkFoldResult] at hs
      rcases List.mem_append.mp hs with h1 | h2
      · exact hacc s h1
      · exact hsnaps s h2
  | cont c2 snaps =>
      rw [hps] at hr hgoods
      obtain ⟨hc2, hsnaps⟩ := hgoods hc
      refine turnStage_good ?_ hc2 hr
      intro s hs
      rcases List.mem_append.mp hs with h1 | h2
      · exact hacc s h1
      · exact hsnaps s h2

/-- C6: every chip movement is capped at the mover's remaining balance, so a
round started with non-negative balances (and the non-negative blinds the game
uses) keeps both balances non-negative at every snapshot and in the returned
balances. -/
theorem C6_balances_nonneg (p0 b0 : Int) (pSB : Bool) (sb bb : Int)
    (deck0 : List Card) (scr : Script) (r : RoundResult)
    (hp : 0 ≤ p0) (hb : 0 ≤ b0) (hsb : 0 ≤ sb) (hbb : 0 ≤ bb)
    (hr : playRound p0 b0 pSB sb bb deck0 scr = some r) :
    (∀ c ∈ r.trace, 0 ≤ c.player ∧ 0 ≤ c.bot) ∧
      0 ≤ r.chips.player ∧ 0 ≤ r.chips.bot := by
  suffices h : (∀ c ∈ r.trace, GoodChips c) ∧ GoodChips r.chips by
    exact ⟨fun c hc => ⟨(h.1 c hc).1, (h.1 c hc).2.1⟩, h.2.1, h.2.2.1⟩
  unfold playRound at hr
  cases h1 : deckDraw 2 deck0 with
  | none => rw [h1] at hr; simp at hr
  | some p1 =>
  obtain ⟨ph, d1⟩ := p1
  rw [h1] at hr
  simp only [Option.bind_eq_bind, Option.some_bind] at hr
  cases h2 : deckDraw 2 d1 with
  | none => rw [h2] at hr; simp at hr
  | some p2 =>
  obtain ⟨bh, d2⟩ := p2
  rw [h2] at hr
  simp only [Option.bind_eq_bind, Option.some_bind] at hr
  rcases hpb : postBlinds p0 b0 pSB sb bb with ⟨cB, pCom, bCom⟩
  rw [hpb] at hr
  have hBgood : GoodChips cB := by
    have := postBlinds_good p0 b0 pSB sb bb hp hb hsb hbb
    rw [hpb] at this
    exact this
  have hpre := preflopStreet_goods pSB scr.preflopPlayer scr.preflopBot cB pCom bCom
  cases hps : preflopStreet pSB scr.preflopPlayer scr.preflopBot cB pCom bCom with
  | folded w cPre snaps =>
      rw [hps] at hr hpre
      simp only [Option.some.injEq] at hr
      subst hr
      obtain ⟨hcPre, hsnaps⟩ := hpre hBgood
      refine ⟨?_, finishOnFold_good hcPre⟩
      intro s hs
      simp only [mkFoldResult] at hs
      rcases List.mem_cons.mp hs with rfl | hmem
      · exact hBgood
      · exact hsnaps s hmem
  | cont c1 snaps1 =>
      rw [hps] at hr hpre
      obtain ⟨hc1, hsnaps⟩ := hpre hBgood
      refine flopStage_good ?_ hc1 hr
      intro s hs
      rcases List.mem_cons.mp hs with rfl | hmem
      · exact hBgood
      · exact hsnaps s hmem

/-! ## Fold termination -/

theorem finishOnFold_pot (w : Winner) (c : Chips) : (finishOnFold w c).pot = 0 := by
  cases w <;> rfl

theorem getLast?_append_of_some {α : Type} {l l' : List α} {a : α}
    (h : l'.getLast? = some a) : (l ++ l').getLast? = some a := by
  rw [List.getLast?_append, h]
  rfl

theorem getLast?_cons_of_some {α : Type} {l : List α} {a x : α}
    (h : l.getLast? = some x) : (a :: l).getLast? = some x :=
  getLast?_append_of_some (l := [a]) h

theorem deckDraw_some_of_le {n : Nat} {cards : List Card} (h : n ≤ cards.length) :
    ∃ drawn rest, deckDraw n cards = some (drawn, rest) ∧ drawn.length = n ∧
      rest.length = cards.length - n := by
  refine ⟨_, _, deckDraw_isSome h, ?_, ?_⟩ <;> simp <;> omega

theorem deckBurn_some_of_le {n : Nat} {cards : List Card} (h : n ≤ cards.length) :
    ∃ rest, deckBurn n cards = some rest ∧ rest.length = cards.length - n := by
  refine ⟨_, deckBurn_isSome h, ?_⟩
  simp

theorem preflopFirstFold_none {f : Bool} {scr : Script}
    (h : preflopFirstFold f scr = none) :
    scr.preflopPlayer ≠ .fold ∧ scr.preflopBot ≠ .fold := by
  unfold preflopFirstFold at h
  cases f <;> split_ifs at h <;> simp_all

theorem streetFirstFold_none {aP aB : Action} (h : streetFirstFold aP aB = none) :
    aP ≠ .fold ∧ aB ≠ .fold := by
  unfold streetFirstFold at h
  split_ifs at h <;> simp_all

theorem preflopStreet_folded {f : Bool} {scr : Script} {who : Actor}
    (c0 : Chips) (p b : Int) (hw : preflopFirstFold f scr = some who) :
    ∃ cPre snaps, preflopStreet f scr.preflopPlayer scr.preflopBot c0 p b =
      StreetOut.folded (otherActor who) cPre snaps ∧ snaps.getLast? = some cPre := by
  unfold preflopFirstFold at hw
  cases f with
  | true =>
      simp only [if_true] at hw
      by_cases h1 : scr.preflopPlayer = .fold
      · rw [if_pos h1] at hw
        injection hw with hw
        subst hw
        rw [h1]
        exact ⟨c0, [c0], rfl, rfl⟩
      · rw [if_neg h1] at hw
        by_cases h2 : scr.preflopBot = .fold
        · rw [if_pos h2] at hw
          injection hw with hw
          subst hw
          cases haP : scr.preflopPlayer with
          | fold => exact absurd haP h1
          | call => rw [h2]; exact ⟨_, _, rfl, rfl⟩
          | raiseBy r => rw [h2]; exact ⟨_, _, rfl, rfl⟩
        · rw [if_neg h2] at hw
          exact absurd hw (by simp)
  | false =>
      simp only [Bool.false_eq_true, if_false] at hw
      by_cases h1 : scr.preflopBot = .fold
      · rw [if_pos h1] at hw
        injection hw with hw
        subst hw
        rw [h1]
        exact ⟨c0, [c0], rfl, rfl⟩
      · rw [if_neg h1] at hw
        by_cases h2 : scr.preflopPlayer = .fold
        · rw [if_pos h2] at hw
          injection hw with hw
          subst hw
          cases haB : scr.preflopBot with
          | fold => exact absurd haB h1
          | call => rw [h2]; exact ⟨_, _, rfl, rfl⟩
          | raiseBy r => rw [h2]; exact ⟨_, _, rfl, rfl⟩
        · rw [if_neg h2] at hw
          exact absurd hw (by simp)

theorem preflopStreet_cont {f : Bool} {scr : Script} (c0 : Chips) (p b : Int)
    (hw : preflopFirstFold f scr = none) :
    ∃ c1 snaps, preflopStreet f scr.preflopPlayer scr.preflopBot c0 p b =
      StreetOut.cont c1 snaps := by
  obtain ⟨h1, h2⟩ := preflopFirstFold_none hw
  cases f <;> cases haP : scr.preflopPlayer <;> cases haB : scr.preflopBot <;>
    first
      | exact absurd haP h1
      | exact absurd haB h2
      | exact ⟨_, _, rfl⟩

theorem postflopStreet_folded {aP aB : Action} {who : Actor} (c0 : Chips)
    (hw : streetFirstFold aP aB = some who) :
    ∃ cPre snaps, postflopStreet aP aB c0 =
      StreetOut.folded (otherActor who) cPre snaps ∧ snaps.getLast? = some cPre := by
  unfold streetFirstFold at hw
  by_cases h1 : aP = .fold
  · rw [if_pos h1] at hw
    injection hw with hw
    subst hw
    rw [h1]
    exact ⟨c0, [c0], rfl, rfl⟩
  · rw [if_neg h1] at hw
    by_cases h2 : aB = .fold
    · rw [if_pos h2] at hw
      injection hw with hw
      subst hw
      cases aP with
      | fold => exact absurd rfl h1
      | call => rw [h2]; exact ⟨_, _, rfl, rfl⟩
      | raiseBy r => rw [h2]; exact ⟨_, _, rfl, rfl⟩
    · rw [if_neg h2] at hw
      exact absurd hw (by simp)

theorem postflopStreet_cont {aP aB : Action} (c0 : Chips)
    (hw : streetFirstFold aP aB = none) :
    ∃ c2 snaps, postflopStreet aP aB c0 = StreetOut.cont c2 snaps := by
  obtain ⟨h1, h2⟩ := streetFirstFold_none hw
  cases aP <;> cases aB <;>
    first
      | exact absurd rfl h1
      | exact absurd rfl h2
      | exact ⟨_, _, rfl⟩
      | (simp only [postflopStreet, postflopPlayerAct, postflopBotAct]
         split_ifs <;> first | exact ⟨_, _, rfl⟩ | simp_all)

/-- C5: the first FOLD of a round, on any street by either actor, ends the
round immediately: the full pot at that moment goes to the other actor, the
pot is cleared, and no cards beyond that street's dealing are burned or
dealt. -/
theorem C5_fold_terminates (p0 b0 : Int) (pSB : Bool) (sb bb : Int)
    (deck0 : List Card) (scr : Script) (st : Street) (who : Actor)
    (hd : 12 ≤ deck0.length) (hf : firstFold pSB scr = some (st, who)) :
    ∃ r c, playRound p0 b0 pSB sb bb deck0 scr = some r ∧
      r.byFold = true ∧
      r.winner = otherActor who ∧
      r.trace.getLast? = some c ∧
      r.chips = finishOnFold (otherActor who) c ∧
      r.chips.pot = 0 ∧
      r.community.length = communityCountAt st ∧
      r.deck.length = deck0.length - deckUsedAt st := by
  obtain ⟨ph, d1, hD1, hphl, hd1l⟩ := deckDraw_some_of_le
    (show 2 ≤ deck0.length by omega)
  obtain ⟨bh, d2, hD2, hbhl, hd2l⟩ := deckDraw_some_of_le
    (show 2 ≤ d1.length by omega)
  unfold playRound
  rw [hD1]
  simp only [Option.bind_eq_bind, Option.some_bind]
  rw [hD2]
  simp only [Option.bind_eq_bind, Option.some_bind]
  rcases hpb : postBlinds p0 b0 pSB sb bb with ⟨cB, pCom, bCom⟩
  unfold firstFold at hf
  cases hpre : preflopFirstFold pSB scr with
  | some a =>
      rw [hpre] at hf
      simp only [Option.some.injEq, Prod.mk.injEq] at hf
      obtain ⟨rfl, rfl⟩ := hf
      obtain ⟨cPre, snaps, hps, hlast⟩ := preflopStreet_folded cB pCom bCom hpre
      rw [hps]
      refine ⟨_, cPre, rfl, rfl, rfl, getLast?_cons_of_some hlast, rfl,
        finishOnFold_pot _ _, rfl, ?_⟩
      simp only [mkFoldResult, deckUsedAt]
      omega
  | none =>
      rw [hpre] at hf
      obtain ⟨c1, snaps1, hps⟩ := preflopStreet_cont cB pCom bCom hpre
      rw [hps]
      unfold flopStage
      obtain ⟨d3, hB1, hd3l⟩ := deckBurn_some_of_le (show 1 ≤ d2.length by omega)
      rw [hB1]
      simp only [Option.bind_eq_bind, Option.some_bind]
      obtain ⟨fc, d4, hD3, hfcl, hd4l⟩ := deckDraw_some_of_le
        (show 3 ≤ d3.length by omega)
      rw [hD3]
      simp only [Option.bind_eq_bind, Option.some_bind]
      cases hflop : streetFirstFold scr.flopPlayer scr.flopBot with
      | some a =>
          rw [hflop] at hf
          simp only [Option.some.injEq, Prod.mk.injEq] at hf
          obtain ⟨rfl, rfl⟩ := hf
          obtain ⟨cPre, snaps, hps2, hlast⟩ := postflopStreet_folded c1 hflop
          rw [hps2]
          refine ⟨_, cPre, rfl, rfl, rfl, getLast?_append_of_some hlast, rfl,
            finishOnFold_pot _ _, ?_, ?_⟩
          · simpa [mkFoldResult, communityCountAt] using hfcl
          · simp only [mkFoldResult, deckUsedAt]
            omega
      | none =>
          rw [hflop] at hf
          obtain ⟨c2, snaps2, hps2⟩ := postflopStreet_cont c1 hflop
          rw [hps2]
          unfold turnStage
          obtain ⟨d5, hB2, hd5l⟩ := deckBurn_some_of_le (show 1 ≤ d4.length by omega)
          rw [hB2]
          simp only [Option.bind_eq_bind, Option.some_bind]
          obtain ⟨tc, d6, hD4, htcl, hd6l⟩ := deckDraw_some_of_le
            (show 1 ≤ d5.length by omega)
          rw [hD4]
          simp only [Option.bind_eq_bind, Option.some_bind]
          cases hturn : streetFirstFold scr.turnPlayer scr.turnBot with
          | some a =>
              rw [hturn] at hf
              simp only [Option.some.injEq, Prod.mk.injEq] at hf
              obtain ⟨rfl, rfl⟩ := hf
              obtain ⟨cPre, snaps, hps3, hlast⟩ := postflopStreet_folded c2 hturn
              rw [hps3]
              refine ⟨_, cPre, rfl, rfl, rfl, getLast?_append_of_some hlast, rfl,
                finishOnFold_pot _ _, ?_, ?_⟩
              · simp only [mkFoldResult, communityCountAt, List.length_append]
                omega
              · simp only [mkFoldResult, deckUsedAt]
                omega
          | none =>
              rw [hturn] at hf
              obtain ⟨c3, snaps3, hps3⟩ := postflopStreet_cont c2 hturn
              rw [hps3]
              unfold riverStage
              obtain ⟨d7, hB3, hd7l⟩ := deckBurn_some_of_le
                (show 1 ≤ d6.length by omega)
              rw [hB3]
              simp only [Option.bind_eq_bind, Option.some_bind]
              obtain ⟨rc, d8, hD5, hrcl, hd8l⟩ := deckDraw_some_of_le
                (show 1 ≤ d7.length by omega)
              rw [hD5]
              simp only [Option.bind_eq_bind, Option.some_bind]
              cases hriver : streetFirstFold scr.riverPlayer scr.riverBot with
              | some a =>
                  rw [hriver] at hf
                  simp only [Option.some.injEq, Prod.mk.injEq] at hf
                  obtain ⟨rfl, rfl⟩ := hf
                  obtain ⟨cPre, snaps, hps4, hlast⟩ := postflopStreet_folded c3 hriver
                  rw [hps4]
                  refine ⟨_, cPre, rfl, rfl, rfl, getLast?_append_of_some hlast, rfl,
                    finishOnFold_pot _ _, ?_, ?_⟩
                  · simp only [mkFoldResult, communityCountAt, List.length_append]
                    omega
                  · simp only [mkFoldResult, deckUsedAt]
                    omega
              | none =>
                  rw [hriver] at hf
                  simp at hf

/-! ## The all-call scenario -/

theorem bestHandScore_isSome {pool : List Card} (h : pool.length = 7) :
    ∃ s, bestHandScore pool = some s := by
  have hne : ∀ x ∈ List.sublistsLen 5 pool, x ≠ [] := by
    intro x hx hcon
    obtain ⟨_, hlen⟩ := List.mem_sublistsLen.mp hx
    rw [hcon] at hlen
    simp at hlen
  obtain ⟨best, hfold, _, _⟩ := foldl_bestStep_spec _ ((-1 : Int), (-1 : Int)) hne
  refine ⟨best, ?_⟩
  unfold bestHandScore
  rw [if_neg (by omega)]
  exact hfold

theorem compareHands_eq {pc bc : List Card} {ps bs : Int × Int}
    (hps : bestHandScore pc = some ps) (hbs : bestHandScore bc = some bs) :
    compareHands pc bc = some (if scoreLt bs ps then Winner.player
      else if scoreLt ps bs then Winner.bot else Winner.tie) := by
  unfold compareHands
  rw [hps, hbs]
  cases hA : scoreLt bs ps <;> cases hB : scoreLt ps bs <;> simp [hA, hB]

/-- The chip state after the blinds in the all-call scenario. -/
def blindState : Chips := ⟨995, 990, 15⟩

/-- The chip state from the small blind's preflop call until settlement in the
all-call scenario. -/
def potState : Chips := ⟨990, 990, 20⟩

/-- Snapshots after the blinds and the preflop actions in the all-call
scenario. -/
def allCallTrace1 : List Chips := [blindState, potState, potState]

/-- Snapshots through the flop betting in the all-call scenario. -/
def allCallTrace2 : List Chips := allCallTrace1 ++ [potState, potState]

/-- Snapshots through the turn betting in the all-call scenario. -/
def allCallTrace3 : List Chips := allCallTrace2 ++ [potState, potState]

/-- Snapshots through the river betting in the all-call scenario. -/
def allCallTrace4 : List Chips := allCallTrace3 ++ [potState, potState]

/-- C9 (amended): with balances 1000/1000, blinds 5/10, player as small blind
and both actors calling every street, the pot at settlement is exactly 20
(the blinds plus the small blind's 5-chip preflop call — not 15), and the pot
is awarded to whichever best hand scores higher (nobody on a tie). -/
theorem C9_allcall_round (deck0 : List Card) (hd : 12 ≤ deck0.length) :
    ∃ r c ps bs, playRound 1000 1000 true 5 10 deck0 allCallScript = some r ∧
      r.byFold = false ∧
      r.trace.getLast? = some c ∧
      c = ⟨990, 990, 20⟩ ∧
      (1000 - c.player) + (1000 - c.bot) = 20 ∧ c.pot = 20 ∧
      bestHandScore (r.playerHand ++ r.community) = some ps ∧
      bestHandScore (r.botHand ++ r.community) = some bs ∧
      r.winner = (if scoreLt bs ps then Winner.player
        else if scoreLt ps bs then Winner.bot else Winner.tie) ∧
      r.chips = awardShowdown r.winner c := by
  obtain ⟨ph, d1, hD1, hphl, hd1l⟩ := deckDraw_some_of_le
    (show 2 ≤ deck0.length by omega)
  obtain ⟨bh, d2, hD2, hbhl, hd2l⟩ := deckDraw_some_of_le
    (show 2 ≤ d1.length by omega)
  obtain ⟨d3, hB1, hd3l⟩ := deckBurn_some_of_le (show 1 ≤ d2.length by omega)
  obtain ⟨fc, d4, hD3, hfcl, hd4l⟩ := deckDraw_some_of_le
    (show 3 ≤ d3.length by omega)
  obtain ⟨d5, hB2, hd5l⟩ := deckBurn_some_of_le (show 1 ≤ d4.length by omega)
  obtain ⟨tc, d6, hD4, htcl, hd6l⟩ := deckDraw_some_of_le
    (show 1 ≤ d5.length by omega)
  obtain ⟨d7, hB3, hd7l⟩ := deckBurn_some_of_le (show 1 ≤ d6.length by omega)
  obtain ⟨rc, d8, hD5, hrcl, hd8l⟩ := deckDraw_some_of_le
    (show 1 ≤ d7.length by omega)
  obtain ⟨ps, hps⟩ := bestHandScore_isSome
    (show (ph ++ ((fc ++ tc) ++ rc)).length = 7 by simp; omega)
  obtain ⟨bs, hbs⟩ := bestHandScore_isSome
    (show (bh ++ ((fc ++ tc) ++ rc)).length = 7 by simp; omega)
  obtain ⟨w, hwEq, hwChar⟩ :
      ∃ w, compareHands (ph ++ ((fc ++ tc) ++ rc)) (bh ++ ((fc ++ tc) ++ rc)) =
          some w ∧
        w = (if scoreLt bs ps then Winner.player
          else if scoreLt ps bs then Winner.bot else Winner.tie) :=
    ⟨_, compareHands_eq hps hbs, rfl⟩
  have h4 : showdownPart potState ph bh ((fc ++ tc) ++ rc) d8 allCallTrace4 =
      some ⟨w, awardShowdown w potState, ph, bh, (fc ++ tc) ++ rc, d8,
        allCallTrace4, false⟩ := by
    unfold showdownPart
    rw [hwEq]
    rfl
  have h3 : riverStage Action.call Action.call potState ph bh (fc ++ tc) d6
      allCallTrace3 =
      some ⟨w, awardShowdown w potState, ph, bh, (fc ++ tc) ++ rc, d8,
        allCallTrace4, false⟩ := by
    unfold riverStage
    rw [hB3]
    simp only [Option.bind_eq_bind, Option.some_bind]
    rw [hD5]
    simp only [Option.bind_eq_bind, Option.some_bind]
    exact h4
  have h2 : turnStage allCallScript potState ph bh fc d4 allCallTrace2 =
      some ⟨w, awardShowdown w potState, ph, bh, (fc ++ tc) ++ rc, d8,
        allCallTrace4, false⟩ := by
    unfold turnStage
    rw [hB2]
    simp only [Option.bind_eq_bind, Option.some_bind]
    rw [hD4]
    simp only [Option.bind_eq_bind, Option.some_bind]
    exact h3
  have h1 : flopStage allCallScript potState ph bh d2 allCallTrace1 =
      some ⟨w, awardShowdown w potState, ph, bh, (fc ++ tc) ++ rc, d8,
        allCallTrace4, false⟩ := by
    unfold flopStage
    rw [hB1]
    simp only [Option.bind_eq_bind, Option.some_bind]
    rw [hD3]
    simp only [Option.bind_eq_bind, Option.some_bind]
    exact h2
  have hrun : playRound 1000 1000 true 5 10 deck0 allCallScript =
      some ⟨w, awardShowdown w potState, ph, bh, (fc ++ tc) ++ rc, d8,
        allCallTrace4, false⟩ := by
    unfold playRound
    rw [hD1]
    simp only [Option.bind_eq_bind, Option.some_bind]
    rw [hD2]
    simp only [Option.bind_eq_bind, Option.some_bind]
    exact h1
  refine ⟨_, potState, ps, bs, hrun, rfl, ?_, rfl, by decide, rfl, hps, hbs,
    hwChar, rfl⟩
  rfl

/-- A script whose first action is a player fold (used to exhibit concrete
round executions). -/
def foldEarlyScript : Script :=
  ⟨.fold, .call, .call, .call, .call, .call, .call, .call⟩

/-- Witness for C1 at a concrete round (player folds preflop on the standard
deck). -/
theorem C1_pot_invariant_witness :
    ∃ r, playRound 1000 1000 true 5 10 standardDeck foldEarlyScript = some r ∧
      ∀ c ∈ r.trace, c.pot = (1000 - c.player) + (1000 - c.bot) := by
  have h : (playRound 1000 1000 true 5 10 standardDeck foldEarlyScript).isSome
      = true := by decide
  exact ⟨_, (Option.some_get h).symm,
    C1_pot_invariant 1000 1000 true 5 10 standardDeck foldEarlyScript _
      (Option.some_get h).symm⟩

/-- Witness for C6 at a concrete round (player folds preflop on the standard
deck). -/
theorem C6_balances_nonneg_witness :
    ∃ r, playRound 1000 1000 true 5 10 standardDeck foldEarlyScript = some r ∧
      ((∀ c ∈ r.trace, 0 ≤ c.player ∧ 0 ≤ c.bot) ∧
        0 ≤ r.chips.player ∧ 0 ≤ r.chips.bot) := by
  have h : (playRound 1000 1000 true 5 10 standardDeck foldEarlyScript).isSome
      = true := by decide
  exact ⟨_, (Option.some_get h).symm,
    C6_balances_nonneg 1000 1000 true 5 10 standardDeck foldEarlyScript _
      (by decide) (by decide) (by decide) (by decide) (Option.some_get h).symm⟩

/-- Witness for C5 at a concrete round: the bot folds on the flop of the
standard deck. -/
theorem C5_fold_terminates_witness :
    ∃ r c, playRound 1000 1000 true 5 10 standardDeck
        ⟨.call, .call, .call, .fold, .call, .call, .call, .call⟩ = some r ∧
      r.byFold = true ∧
      r.winner = otherActor .bot ∧
      r.trace.getLast? = some c ∧
      r.chips = finishOnFold (otherActor .bot) c ∧
      r.chips.pot = 0 ∧
      r.community.length = communityCountAt .flop ∧
      r.deck.length = standardDeck.length - deckUsedAt .flop :=
  C5_fold_terminates 1000 1000 true 5 10 standardDeck
    ⟨.call, .call, .call, .fold, .call, .call, .call, .call⟩ .flop .bot
    (by decide) (by decide)

/-- Witness for C9 (amended) at the standard deck. -/
theorem C9_allcall_round_witness :
    ∃ r c ps bs, playRound 1000 1000 true 5 10 standardDeck allCallScript
        = some r ∧
      r.byFold = false ∧
      r.trace.getLast? = some c ∧
      c = ⟨990, 990, 20⟩ ∧
      (1000 - c.player) + (1000 - c.bot) = 20 ∧ c.pot = 20 ∧
      bestHandScore (r.playerHand ++ r.community) = some ps ∧
      bestHandScore (r.botHand ++ r.community) = some bs ∧
      r.winner = (if scoreLt bs ps then Winner.player
        else if scoreLt ps bs then Winner.bot else Winner.tie) ∧
      r.chips = awardShowdown r.winner c :=
  C9_allcall_round standardDeck (by decide)

set_option maxRecDepth 100000 in
/-- Counterexample to C9 as stated: in the all-call scenario on a concrete
52-card deck, the chips moved into the pot by settlement total 20, not 15 (the
small blind's preflop call of 5 joins the blinds). -/
theorem C9_fifteen_refuted :
    (playRound 1000 1000 true 5 10 standardDeck allCallScript).map
      (fun r => (1000 - (r.trace.getLast?.getD ⟨0, 0, 0⟩).player) +
        (1000 - (r.trace.getLast?.getD ⟨0, 0, 0⟩).bot)) = some 20 ∧
    (20 : Int) ≠ 15 := by
  constructor
  · decide
  · decide

/-- Witness for C2 at a concrete hand (the royal flush in Hearts). -/
theorem C2_evaluator_matches_spec_witness :
    ∃ c t, evaluateHand [Card.mk "10" "Hearts", Card.mk "J" "Hearts",
      Card.mk "Q" "Hearts", Card.mk "K" "Hearts", Card.mk "A" "Hearts"] =
        some (c, t) ∧
      c = specCategory [Card.mk "10" "Hearts", Card.mk "J" "Hearts",
        Card.mk "Q" "Hearts", Card.mk "K" "Hearts", Card.mk "A" "Hearts"] ∧
      c ≤ 9 :=
  C2_evaluator_matches_spec _ (by decide) (by decide)

end PokerBot
